import Mathlib

/-!
Verification development for the planning/execution core of a small SQL
database.  The Rust sources are shallowly embedded: pure fragments become
Lean functions, the storage façade and the result sink become explicit
arguments/results (messages sent to the sink are collected in order in a
list), and Rust panics (out-of-bounds `Vec` indexing) are modelled by
`Option` with `none` for a panic.
-/

namespace Db

/-- SQL column types (`sql_model::sql_types::SqlType`, the subset exercised
here). -/
inductive SqlType where
  | smallInt
  | integer
  | bigInt
  | char (n : Nat)
  | varChar (n : Nat)
deriving Repr, DecidableEq

/-- Constraint-violation outcomes of type validation
(`sql_model::sql_types::ConstraintError`). -/
inductive ConstraintError where
  | outOfRange
  | typeMismatch (value : String)
  | valueTooLong (len : Nat)
deriving Repr, DecidableEq

/-- Decimal digits of an integer text, folded into a `Nat` accumulator;
`none` on any non-digit character. -/
def digitsToNat : List Char → Nat → Option Nat
  | [], acc => some acc
  | c :: cs, acc =>
    if c.isDigit then digitsToNat cs (acc * 10 + (c.toNat - 48)) else none

/-- A non-empty all-digit character list as a `Nat`. -/
def parseDigits : List Char → Option Nat
  | [] => none
  | cs => digitsToNat cs 0

/-- Modelled from the spec: the textual integer parsing behind numeric
validation (`sql_model::sql_types`, not under `src/`): an optional sign
followed by at least one decimal digit, anything else is unparsable. -/
def parseIntText (s : String) : Option Int :=
  match s.data with
  | '-' :: cs => (parseDigits cs).map (fun n => -(n : Int))
  | '+' :: cs => (parseDigits cs).map (fun n => (n : Int))
  | cs => (parseDigits cs).map (fun n => (n : Int))

/-- Modelled from the spec: the validation rule of each `SqlType`
(`sql_model::sql_types`, not under `src/`).  §4.2: numeric types yield
`OutOfRange` when the magnitude exceeds the type's range and
`TypeMismatch` carrying the offending text when unparsable; fixed- and
variable-width character types yield `ValueTooLong(n)` when the input
exceeds the declared length `n`.  `none` means the candidate passes. -/
def SqlType.validate : SqlType → String → Option ConstraintError
  | .smallInt, s =>
    match parseIntText s with
    | none => some (.typeMismatch s)
    | some v => if v < -32768 ∨ 32767 < v then some .outOfRange else none
  | .integer, s =>
    match parseIntText s with
    | none => some (.typeMismatch s)
    | some v => if v < -2147483648 ∨ 2147483647 < v then some .outOfRange else none
  | .bigInt, s =>
    match parseIntText s with
    | none => some (.typeMismatch s)
    | some v =>
      if v < -9223372036854775808 ∨ 9223372036854775807 < v then some .outOfRange else none
  | .char n, s => if n < s.length then some (.valueTooLong n) else none
  | .varChar n, s => if n < s.length then some (.valueTooLong n) else none

/-- A column of a table (`ColumnDefinition`): its name and declared type
(the nullability flag plays no role in the embedded code paths). -/
structure ColumnDefinition where
  name : String
  sqlType : SqlType
deriving Repr, DecidableEq

/-- Errors delivered to the result sink (`protocol::results::QueryError`,
the variants produced by this core). -/
inductive QueryError where
  | schemaDoesNotExist (nm : String)
  | tableDoesNotExist (nm : String)
  | synError (msg : String)
  | columnDoesNotExist (nm : String)
  | outOfRange (t : SqlType) (col : String) (ordinal : Nat)
  | typeMismatch (value : String) (t : SqlType) (col : String) (ordinal : Nat)
  | stringLengthMismatch (t : SqlType) (len : Nat) (col : String) (ordinal : Nat)
  | tooManyInsertExpressions
  | featureNotSupported (msg : String)
deriving Repr, DecidableEq

/-- Events delivered to the result sink (`protocol::results::QueryEvent`,
the variants produced by this core). -/
inductive QueryEvent where
  | schemaCreated
  | tableCreated
  | schemaDropped
  | recordsInserted (n : Nat)
  | recordsDeleted (n : Nat)
  | recordsSelected (header : List (String × SqlType)) (rows : List (List String))
  | queryComplete
deriving Repr, DecidableEq

/-- One message sent through the result sink: `send(Err(e))` or
`send(Ok(e))`. -/
inductive Msg where
  | err (e : QueryError)
  | ev (e : QueryEvent)
deriving Repr, DecidableEq

/-- A stored datum inside an encoded row: the NULL sentinel or a literal
value (kept in its textual form, as `Datum::to_string` renders it). -/
inductive Datum where
  | dnull
  | dstr (s : String)
deriving Repr, DecidableEq

/-- Modelled from the spec: a scalar insert cell as seen through
`ExpressionEvaluation::eval` (`sql_engine::query::expr`, not under
`src/`).  §4.4: evaluation yields a bound value tagged literal or
non-literal, or fails; `insert.rs` only inspects which of the three cases
occurred and, for a literal, its text. -/
inductive Cell where
  | lit (s : String)
  | nonLit
  | evalFailed
deriving Repr, DecidableEq

/-- Is this cell a literal? -/
def Cell.isLit : Cell → Bool
  | .lit _ => true
  | _ => false

/-- The constraint-error message `insert.rs` sends for a failed cell:
`QueryError::{out_of_range, type_mismatch, string_length_mismatch}` with
the column's type, name and the 1-based ordinal `idx + 1`. -/
def constraintMsg (col : ColumnDefinition) (idx : Nat) : ConstraintError → Msg
  | .outOfRange => .err (.outOfRange col.sqlType col.name (idx + 1))
  | .typeMismatch v => .err (.typeMismatch v col.sqlType col.name (idx + 1))
  | .valueTooLong len => .err (.stringLengthMismatch col.sqlType len col.name (idx + 1))

/-- The evaluation/validation loop of `InsertCommand::execute` over the
cells of one row (insert.rs lines 57-113), starting at cell index `idx`.
`none` models the panic of `all_columns[idx]` when `idx` is out of bounds;
`some (.error ms)` models the early `return Ok(())` taken for a
non-literal value (after sending "feature not supported") or for an
evaluator failure; `some (.ok (ms, hasError, vals))` is the completed loop
with the messages sent, the error flag, and the validated literal texts
pushed into `row`. -/
def evalCells (cols : List ColumnDefinition) (idx : Nat) :
    List Cell → Option (Except (List Msg) (List Msg × Bool × List String))
  | [] => some (.ok ([], false, []))
  | c :: rest =>
    match cols[idx]? with
    | none => none
    | some col =>
      match c with
      | .evalFailed => some (.error [])
      | .nonLit =>
        some (.error [.err (.featureNotSupported
          "Only expressions resulting in a literal are supported")])
      | .lit s =>
        match col.sqlType.validate s with
        | none =>
          match evalCells cols (idx + 1) rest with
          | none => none
          | some (.error ms) => some (.error ms)
          | some (.ok (ms, he, vs)) => some (.ok (ms, he, s :: vs))
        | some ce =>
          match evalCells cols (idx + 1) rest with
          | none => none
          | some (.error ms) => some (.error (constraintMsg col idx ce :: ms))
          | some (.ok (ms, _, vs)) => some (.ok (constraintMsg col idx ce :: ms, true, vs))

/-- The outer row loop of the evaluation/validation phase (insert.rs
lines 55-115): runs `evalCells` on every input row, accumulating messages,
the `has_error` flag and the validated rows, with the same early-return
and panic behaviour. -/
def evalRows (cols : List ColumnDefinition) :
    List (List Cell) → Option (Except (List Msg) (List Msg × Bool × List (List String)))
  | [] => some (.ok ([], false, []))
  | line :: rest =>
    match evalCells cols 0 line with
    | none => none
    | some (.error ms) => some (.error ms)
    | some (.ok (ms, he, row)) =>
      match evalRows cols rest with
      | none => none
      | some (.error ms2) => some (.error (ms ++ ms2))
      | some (.ok (ms2, he2, rows)) => some (.ok (ms ++ ms2, he || he2, row :: rows))

/-- First matching column for a target-column name (insert.rs lines
135-142: scan `all_columns` in order, stop at the first
`column_definition.has_name(column_name)`). -/
def findColumn (cols : List ColumnDefinition) (nm : String) : Option (Nat × ColumnDefinition) :=
  (cols.enum).find? (fun p => p.2.name == nm)

/-- Resolution of an explicit target-column list (insert.rs lines
128-159): each name is resolved through `findColumn`; every unresolved
name sends `QueryError::column_does_not_exist` and sets the error flag,
resolved names are collected in order. -/
def resolveColumns (cols : List ColumnDefinition) :
    List String → List Msg × Bool × List (Nat × ColumnDefinition)
  | [] => ([], false, [])
  | nm :: rest =>
    let r := resolveColumns cols rest
    match findColumn cols nm with
    | some ic => (r.1, r.2.1, ic :: r.2.2)
    | none => (.err (.columnDoesNotExist nm) :: r.1, true, r.2.2)

/-- The `index_columns` computation of insert.rs lines 121-160: an empty
explicit list means positional mapping to all columns (`enumerate`), a
non-empty list goes through `resolveColumns` and aborts (`.error ms`) when
any name was unresolved. -/
def indexColumns (cols : List ColumnDefinition) (names : List String) :
    Except (List Msg) (List (Nat × ColumnDefinition)) :=
  if names.isEmpty then .ok cols.enum
  else if (resolveColumns cols names).2.1 then .error (resolveColumns cols names).1
  else .ok (resolveColumns cols names).2.2

/-- Record construction for one accepted row (insert.rs lines 177-182):
start from `all_columns.len()` NULL datums, then for each validated value
zipped with its `index_columns` entry overwrite the datum at the entry's
index. -/
def buildRecord (numCols : Nat) (ics : List (Nat × ColumnDefinition)) (row : List String) :
    List Datum :=
  (row.zip ics).foldl (fun rec p => rec.set p.2.1 (.dstr p.1))
    (List.replicate numCols .dnull)

/-- The write-preparation loop of insert.rs lines 162-184: per validated
row, first the `row.len() > all_columns.len()` check (sending
`too_many_insert_expressions` and returning on failure), then a fresh
monotone key from `next_key_id` and the packed record. -/
def buildToWrite (numCols : Nat) (ics : List (Nat × ColumnDefinition)) (key : Nat) :
    List (List String) → Except Msg (List (Nat × List Datum))
  | [] => .ok []
  | row :: rest =>
    if numCols < row.length then .error (.err .tooManyInsertExpressions)
    else
      match buildToWrite numCols ics (key + 1) rest with
      | .error m => .error m
      | .ok ws => .ok ((key, buildRecord numCols ics row) :: ws)

/-- The outcome of `InsertCommand::execute`: the messages sent to the
result sink, in order, and the batch handed to `write_into`. -/
structure InsertOutcome where
  msgs : List Msg
  writes : List (Nat × List Datum)
deriving Repr, DecidableEq

/-- `InsertCommand::execute` (insert.rs lines 48-195) for a table whose
columns are `cols`, explicit target-column list `names` (empty = none
given), input cell matrix `input`, and first fresh key `startKey`.
`none` models a panic; otherwise the messages sent and the rows written
(the storage write itself is modelled as succeeding, returning the batch
size reported through `RecordsInserted`). -/
def insertExecute (cols : List ColumnDefinition) (names : List String)
    (input : List (List Cell)) (startKey : Nat) : Option InsertOutcome :=
  match evalRows cols input with
  | none => none
  | some (.error ms) => some ⟨ms, []⟩
  | some (.ok (ms, he, rows)) =>
    if he then some ⟨ms, []⟩
    else
      match indexColumns cols names with
      | .error ms2 => some ⟨ms ++ ms2, []⟩
      | .ok ics =>
        match buildToWrite cols.length ics startKey rows with
        | .error m => some ⟨ms ++ [m], []⟩
        | .ok ws => some ⟨ms ++ [.ev (.recordsInserted ws.length)], ws⟩

/-! ## Name construction (`query_planner/src/lib.rs`)

A parsed multi-part identifier (`sqlparser::ast::ObjectName`) is embedded
as the list of its ident parts; its `Display` joins the parts with `"."`. -/

/-- `ObjectName`'s rendering: the ident parts joined with dots. -/
def joinDot : List String → String
  | [] => ""
  | [s] => s
  | s :: rest => s ++ "." ++ joinDot rest

/-- `SchemaNamingError` (lib.rs line 66): carries the offending
identifier's text. -/
structure SchemaNamingError where
  text : String
deriving Repr, DecidableEq

/-- `Display for SchemaNamingError` (lib.rs lines 68-72). -/
def schemaNamingErrorText (e : SchemaNamingError) : String :=
  "only unqualified schema names are supported, \x27" ++ e.text ++ "\x27"

/-- `SchemaName::try_from(&ObjectName)` (lib.rs lines 48-58): exactly one
part is required; the name keeps the object's rendered text. -/
def schemaNameTryFrom (parts : List String) : Except SchemaNamingError String :=
  if parts.length ≠ 1 then .error ⟨joinDot parts⟩ else .ok (joinDot parts)

/-- `TableNamingError` (lib.rs lines 106-109). -/
inductive TableNamingError where
  | unqualified (text : String)
  | notProcessed (text : String)
deriving Repr, DecidableEq

/-- `Display for TableNamingError` (lib.rs lines 111-122). -/
def tableNamingErrorText : TableNamingError → String
  | .unqualified t =>
    "unsupported table name \x27" ++ t ++ "\x27. All table names must be qualified"
  | .notProcessed t => "unable to process table name \x27" ++ t ++ "\x27"

/-- `FullTableName` (lib.rs line 76): schema part and table part. -/
structure FullTableName where
  schema : String
  table : String
deriving Repr, DecidableEq

/-- `FullTableName::try_from(&ObjectName)` (lib.rs lines 90-104): one part
is rejected as unqualified, any count other than two as not processed;
with two parts the first is the schema and the last the table. -/
def fullTableNameTryFrom (parts : List String) : Except TableNamingError FullTableName :=
  if parts.length == 1 then .error (.unqualified (joinDot parts))
  else if parts.length ≠ 2 then .error (.notProcessed (joinDot parts))
  else .ok ⟨parts.headD "", (parts.getLast?).getD ""⟩

/-! ## Drop-schema planner (`query_planner/src/planner/drop_schema.rs`) -/

/-- `DropSchemaPlanner::plan` (drop_schema.rs lines 37-59) over the list
of schema object names.  The catalog is the read-only `schema_exists`
lookup.  The result is the messages sent to the sink plus `some` payload
of `Plan::DropSchemas` on success or `none` for the `Err(())` abort: on a
malformed name a syntax error is sent and planning stops; on an unknown
schema a schema-does-not-exist error is sent and planning stops. -/
def dropSchemaPlan (cascade : Bool) (schemaExists : String → Option Nat) :
    List (List String) → List Msg × Option (List (Nat × Bool))
  | [] => ([], some [])
  | parts :: rest =>
    match schemaNameTryFrom parts with
    | .error e => ([.err (.synError (schemaNamingErrorText e))], none)
    | .ok nm =>
      match schemaExists nm with
      | none => ([.err (.schemaDoesNotExist nm)], none)
      | some sid =>
        let r := dropSchemaPlan cascade schemaExists rest
        (r.1, r.2.map (fun l => (sid, cascade) :: l))

/-! ## Drop-schema executor (`sql_engine/src/ddl/drop_schema.rs`) -/

/-- `data_manager::DropStrategy`. -/
inductive DropStrategy where
  | cascade
  | restrict
deriving Repr, DecidableEq

/-- `data_manager::DropSchemaError`. -/
inductive DropSchemaError where
  | doesNotExist
  | hasDependentObjects
  | catalogDoesNotExist
deriving Repr, DecidableEq

/-- The façade's answer to `drop_schema`: a storage/system error of type
`ε`, a drop error, or success. -/
inductive DmDropResult (ε : Type) where
  | sysErr (e : ε)
  | dropErr (e : DropSchemaError)
  | dropped
deriving Repr, DecidableEq

/-- `DropSchemaCommand::execute` (drop_schema.rs lines 44-77): the cascade
flag picks the strategy; a storage error propagates as `Err`; all three
`DropSchemaError` outcomes are silently ignored (each commented-out send
included); success sends `SchemaDropped`. -/
def dropSchemaExecute {ε : Type} (cascade : Bool) (dm : DropStrategy → DmDropResult ε) :
    Except ε (List Msg) :=
  match dm (if cascade then DropStrategy.cascade else DropStrategy.restrict) with
  | .sysErr e => .error e
  | .dropErr .catalogDoesNotExist => .ok []
  | .dropErr .hasDependentObjects => .ok []
  | .dropErr .doesNotExist => .ok []
  | .dropped => .ok [.ev .schemaDropped]

/-! ## Projection / select (`storage` frontend) -/

/-- Modelled from the spec: `FrontendStorage::select_all_from` (the
`storage` frontend implementation is not under `src/`; only its tests
are).  §4.5/§4.7: each requested column name is resolved against the
table's column list (first match); the output header repeats the
requested columns in request order — duplicates preserved — and every
stored row is projected through the same index list. -/
def selectAllFrom (cols : List (String × SqlType)) (rows : List (List String))
    (requested : List String) :
    Option (List (String × SqlType) × List (List String)) :=
  match requested.mapM (fun nm => cols.find? (fun c => c.1 == nm)) with
  | none => none
  | some hdr =>
    match requested.mapM (fun nm => cols.findIdx? (fun c => c.1 == nm)) with
    | none => none
    | some idxs =>
      match rows.mapM (fun r => idxs.mapM (fun i => r[i]?)) with
      | none => none
      | some out => some (hdr, out)

/-! ## Statement scenario machinery (delete test, `sql_engine/src/tests/delete.rs`) -/

/-- The observable state of one table held by the data manager: its
column definitions, its stored rows in key order, and the next fresh key. -/
structure TableState where
  cols : List ColumnDefinition
  rows : List (Nat × List Datum)
  nextKey : Nat
deriving Repr, DecidableEq

/-- Modelled from the spec: rendering of a stored datum back to the
result text (`representation`, not under `src/`); literal values keep
their text. -/
def datumText : Datum → String
  | .dnull => ""
  | .dstr s => s

/-- `CreateTableCommand::execute` (create_table.rs lines 41-52): calls
the façade's `create_table` with the plan's (schema id, table name,
columns) tuple; a storage error propagates unmodified as `Err`; on
success — the façade's new `TableId` is ignored — it sends
`TableCreated`. -/
def createTableExecute {ε : Type} (schemaId : Nat) (tableName : String)
    (columns : List ColumnDefinition)
    (dm : Nat → String → List ColumnDefinition → Except ε (Nat × Nat)) :
    Except ε (List Msg) :=
  match dm schemaId tableName columns with
  | .error e => .error e
  | .ok _tableId => .ok [.ev .tableCreated]

/-- Modelled from the spec: the SELECT executor (§4.7, not under `src/`):
a `select *` reports the (name, type) header of all columns and every
stored row's datums rendered to text, in key order. -/
def selectStarExec (ts : TableState) : List Msg :=
  [.ev (.recordsSelected (ts.cols.map (fun c => (c.name, c.sqlType)))
    (ts.rows.map (fun r => r.2.map datumText)))]

/-- Modelled from the spec: the DELETE executor (§4.7, not under `src/`):
removes all currently stored rows and reports their count. -/
def deleteAllExec (ts : TableState) : List Msg × TableState :=
  ([.ev (.recordsDeleted ts.rows.length)], { ts with rows := [] })

/-- An INSERT statement against a table state, through the embedded
`InsertCommand::execute`: written rows are appended to storage and the
key counter advances. -/
def insertStmt (ts : TableState) (input : List (List Cell)) :
    Option (List Msg × TableState) :=
  match insertExecute ts.cols [] input ts.nextKey with
  | none => none
  | some o =>
    some (o.msgs,
      { ts with rows := ts.rows ++ o.writes, nextKey := ts.nextKey + o.writes.length })

/-- `QueryComplete`, sent after every statement (§4.7 state machine). -/
def qc : Msg := .ev .queryComplete

/-- The statement sequence of the `delete_all_records` test from
`CREATE TABLE schema_name.table_name (column_test smallint)` on: two
single-row inserts, a select, a delete, a select; every statement's
messages are followed by `QueryComplete`.  CREATE TABLE runs through the
embedded `CreateTableCommand::execute` against a façade whose
`create_table` succeeds, after which the table's storage starts empty
with key counter 0. -/
def scenB : Option (List Msg) :=
  let cols : List ColumnDefinition := [⟨"column_test", .smallInt⟩]
  match createTableExecute (ε := Nat) 1 "table_name" cols (fun _ _ _ => .ok (1, 1)) with
  | .error _ => none
  | .ok cmsgs =>
    let t0 : TableState := ⟨cols, [], 0⟩
    match insertStmt t0 [[.lit "123"]] with
    | none => none
    | some (m1, t1) =>
      match insertStmt t1 [[.lit "456"]] with
      | none => none
      | some (m2, t2) =>
        let d := deleteAllExec t2
        some (cmsgs ++ [qc] ++ m1 ++ [qc] ++ m2 ++ [qc] ++
          selectStarExec t2 ++ [qc] ++ d.1 ++ [qc] ++ selectStarExec d.2 ++ [qc])

/-! ## Specification-side descriptions of the insert validation phase -/

/-- The constraint-error message of one positioned cell, read off the
spec: a literal failing the validation rule of the column at the cell's
position yields that column's error message with the 1-based ordinal. -/
def cellErrMsg (cols : List ColumnDefinition) (p : Nat × Cell) : Option Msg :=
  match p.2 with
  | .lit s =>
    match cols[p.1]? with
    | none => none
    | some col =>
      match col.sqlType.validate s with
      | none => none
      | some ce => some (constraintMsg col p.1 ce)
  | _ => none

/-- The validated text of one positioned cell: a literal that passes the
positional column's rule. -/
def cellOkText (cols : List ColumnDefinition) (p : Nat × Cell) : Option String :=
  match p.2 with
  | .lit s =>
    match cols[p.1]? with
    | none => none
    | some col =>
      match col.sqlType.validate s with
      | none => some s
      | some _ => none
  | _ => none

/-- All constraint errors of an insert statement, spec-side: every cell of
every row, in statement order, that fails its positional column's rule. -/
def specConstraintErrors (cols : List ColumnDefinition) (input : List (List Cell)) : List Msg :=
  input.flatMap (fun row => row.enum.filterMap (cellErrMsg cols))

/-- The validated literal texts of one row, spec-side. -/
def specValidRow (cols : List ColumnDefinition) (row : List Cell) : List String :=
  row.enum.filterMap (cellOkText cols)

/-- The text of a literal cell. -/
def litText : Cell → String
  | .lit s => s
  | _ => ""

/-- Spec-side record of a positionally mapped row: column `j` holds the
`j`-th cell's text, and NULL past the row's end. -/
def specPositionalRecord (numCols : Nat) (row : List Cell) : List Datum :=
  (List.range numCols).map fun j =>
    match row[j]? with
    | some (Cell.lit s) => Datum.dstr s
    | _ => Datum.dnull

/-- Spec-side batch of a positionally mapped insert: consecutive keys from
`k`, one positional record per input row. -/
def specPositionalWrites (cols : List ColumnDefinition) (input : List (List Cell)) (k : Nat) :
    List (Nat × List Datum) :=
  (input.enumFrom k).map fun p => (p.1, specPositionalRecord cols.length p.2)

/-- Spec-side unresolved-column errors of an explicit target-column list:
one `column_does_not_exist` per name, in list order, that matches no
table column. -/
def specUnresolvedErrors (cols : List ColumnDefinition) (names : List String) : List Msg :=
  names.filterMap fun nm =>
    if (findColumn cols nm).isSome then none else some (.err (.columnDoesNotExist nm))

/-- Is a message one of the three constraint-error reports? -/
def isConstraintMsg : Msg → Bool
  | .err (.outOfRange _ _ _) => true
  | .err (.typeMismatch _ _ _ _) => true
  | .err (.stringLengthMismatch _ _ _ _) => true
  | _ => false

/-! ## Lemmas about the evaluation/validation phase -/

lemma bnot_isEmpty_append (a b : List Msg) :
    (!(a ++ b).isEmpty) = ((!a.isEmpty) || (!b.isEmpty)) := by
  cases a <;> simp [List.isEmpty]

lemma evalCells_eq (cols : List ColumnDefinition) :
    ∀ (row : List Cell) (idx : Nat), (∀ c ∈ row, c.isLit) → idx + row.length ≤ cols.length →
    evalCells cols idx row =
      some (.ok ((row.enumFrom idx).filterMap (cellErrMsg cols),
        !((row.enumFrom idx).filterMap (cellErrMsg cols)).isEmpty,
        (row.enumFrom idx).filterMap (cellOkText cols))) := by
  intro row
  induction row with
  | nil => intro idx _ _; simp [evalCells, List.enumFrom]
  | cons c rest ih =>
    intro idx hlit hfit
    obtain ⟨s, rfl⟩ : ∃ s, c = Cell.lit s := by
      have := hlit c (by simp)
      cases c <;> simp_all [Cell.isLit]
    have hidx : idx < cols.length := by simp at hfit; omega
    have hcol : cols[idx]? = some cols[idx] := List.getElem?_eq_getElem hidx
    have hrest := ih (idx + 1) (fun c hc => hlit c (by simp [hc]))
      (by simp at hfit ⊢; omega)
    simp only [evalCells, hcol, hrest, List.enumFrom, List.filterMap]
    cases hv : (cols[idx].sqlType).validate s with
    | none =>
      simp [cellErrMsg, cellOkText, hcol, hv]
    | some ce =>
      simp [cellErrMsg, cellOkText, hcol, hv, List.isEmpty]

lemma evalRows_eq (cols : List ColumnDefinition) :
    ∀ (input : List (List Cell)),
    (∀ row ∈ input, ∀ c ∈ row, c.isLit) → (∀ row ∈ input, row.length ≤ cols.length) →
    evalRows cols input =
      some (.ok (specConstraintErrors cols input,
        !(specConstraintErrors cols input).isEmpty,
        input.map (specValidRow cols))) := by
  intro input
  induction input with
  | nil => intro _ _; simp [evalRows, specConstraintErrors]
  | cons row rest ih =>
    intro hlit hfit
    have hrow := evalCells_eq cols row 0 (hlit row (by simp)) (by simpa using hfit row (by simp))
    have hrest := ih (fun r hr => hlit r (by simp [hr])) (fun r hr => hfit r (by simp [hr]))
    simp only [evalRows, hrow, hrest]
    simp only [specConstraintErrors, specValidRow, List.enum_eq_enumFrom, List.flatMap_cons,
      List.map_cons]
    rw [bnot_isEmpty_append]

lemma isConstraintMsg_constraintMsg (col : ColumnDefinition) (idx : Nat) (ce : ConstraintError) :
    isConstraintMsg (constraintMsg col idx ce) = true := by
  cases ce <;> rfl

lemma specConstraintErrors_all (cols : List ColumnDefinition) (input : List (List Cell)) :
    ∀ m ∈ specConstraintErrors cols input, isConstraintMsg m = true := by
  intro m hm
  rw [specConstraintErrors, List.mem_flatMap] at hm
  obtain ⟨row, _, hmem⟩ := hm
  rw [List.mem_filterMap] at hmem
  obtain ⟨⟨i, c⟩, _, hp⟩ := hmem
  cases c with
  | lit s =>
    cases hcol : cols[i]? with
    | none => simp [cellErrMsg, hcol] at hp
    | some col =>
      cases hval : col.sqlType.validate s with
      | none => simp [cellErrMsg, hcol, hval] at hp
      | some ce =>
        simp only [cellErrMsg, hcol, hval] at hp
        obtain rfl : constraintMsg col i ce = m := by injection hp
        exact isConstraintMsg_constraintMsg col i ce
  | nonLit => simp [cellErrMsg] at hp
  | evalFailed => simp [cellErrMsg] at hp

/-! ## Claim theorems about INSERT -/

/-- C1: for every INSERT statement whose cells all evaluate to literals
and whose rows fit the table, if any single cell fails its column's
constraint validation then the batch handed to storage is empty (the
table is unchanged) and the messages sent are exactly the constraint
errors of every failing cell of the whole statement — each carrying the
column name and the 1-based ordinal (see `constraintMsg`) — so all
errors are reported before the statement fails. -/
theorem insert_failed_cell_aborts_and_reports_all_errors
    (cols : List ColumnDefinition) (names : List String) (input : List (List Cell)) (k : Nat)
    (hlit : ∀ row ∈ input, ∀ c ∈ row, c.isLit)
    (hfit : ∀ row ∈ input, row.length ≤ cols.length)
    (hbad : specConstraintErrors cols input ≠ []) :
    insertExecute cols names input k = some ⟨specConstraintErrors cols input, []⟩ := by
  have he : (specConstraintErrors cols input).isEmpty = false := by
    cases h : specConstraintErrors cols input with
    | nil => exact absurd h hbad
    | cons x xs => rfl
  unfold insertExecute
  rw [evalRows_eq cols input hlit hfit]
  simp [he]

/-- Witness for C1: a two-row insert into `(a SMALLINT, b CHAR(2))` whose
three failing cells are all reported, with column names and 1-based
ordinals, and nothing is written. -/
theorem insert_failed_cell_aborts_and_reports_all_errors_witness :
    insertExecute [⟨"a", SqlType.smallInt⟩, ⟨"b", SqlType.char 2⟩] []
        [[Cell.lit "99999", Cell.lit "xyz"], [Cell.lit "5", Cell.lit "toolong"]] 0 =
      some ⟨specConstraintErrors [⟨"a", SqlType.smallInt⟩, ⟨"b", SqlType.char 2⟩]
        [[Cell.lit "99999", Cell.lit "xyz"], [Cell.lit "5", Cell.lit "toolong"]], []⟩ ∧
    specConstraintErrors [⟨"a", SqlType.smallInt⟩, ⟨"b", SqlType.char 2⟩]
        [[Cell.lit "99999", Cell.lit "xyz"], [Cell.lit "5", Cell.lit "toolong"]] =
      [.err (.outOfRange .smallInt "a" 1),
       .err (.stringLengthMismatch (.char 2) 2 "b" 2),
       .err (.stringLengthMismatch (.char 2) 2 "b" 2)] :=
  ⟨insert_failed_cell_aborts_and_reports_all_errors _ _ _ 0
      (by decide) (by decide) (by decide),
   by decide⟩

/-- C2 counterexample: table `(a CHAR(3), b SMALLINT)`, explicit target
list `(b)`, single cell `'abc'`.  The cell targets column `b` and `'abc'`
fails `b`'s SMALLINT rule, yet the statement reports no error and writes
`'abc'` into `b`: validation used the positional column `a`, not the
target column. -/
theorem insert_validation_ignores_target_column :
    SqlType.validate .smallInt "abc" = some (.typeMismatch "abc") ∧
    findColumn [⟨"a", .char 3⟩, ⟨"b", .smallInt⟩] "b" = some (1, ⟨"b", .smallInt⟩) ∧
    insertExecute [⟨"a", .char 3⟩, ⟨"b", .smallInt⟩] ["b"] [[.lit "abc"]] 0 =
      some ⟨[.ev (.recordsInserted 1)], [(0, [.dnull, .dstr "abc"])]⟩ := by
  refine ⟨by decide, by decide, by decide⟩

lemma resolveColumns_eq (cols : List ColumnDefinition) :
    ∀ names : List String,
    resolveColumns cols names =
      (specUnresolvedErrors cols names,
       names.any (fun nm => (findColumn cols nm).isNone),
       names.filterMap (findColumn cols)) := by
  intro names
  induction names with
  | nil => rfl
  | cons nm rest ih =>
    simp only [resolveColumns, ih, specUnresolvedErrors, List.filterMap_cons, List.any_cons]
    cases h : findColumn cols nm <;> simp [h]

lemma specUnresolvedErrors_not_constraint (cols : List ColumnDefinition) (names : List String) :
    ∀ m ∈ specUnresolvedErrors cols names, isConstraintMsg m = false := by
  intro m hm
  rw [specUnresolvedErrors, List.mem_filterMap] at hm
  obtain ⟨nm, _, hnm⟩ := hm
  by_cases h : (findColumn cols nm).isSome <;> simp [h] at hnm
  rw [← hnm]; rfl

lemma buildToWrite_error (numCols : Nat) (ics : List (Nat × ColumnDefinition)) :
    ∀ (rows : List (List String)) (key : Nat) (m : Msg),
    buildToWrite numCols ics key rows = .error m → m = .err .tooManyInsertExpressions := by
  intro rows
  induction rows with
  | nil => intro key m h; simp [buildToWrite] at h
  | cons r rest ih =>
    intro key m h
    simp only [buildToWrite] at h
    split at h
    · injection h with h; exact h.symm
    · cases hrec : buildToWrite numCols ics (key + 1) rest with
      | error m2 =>
        rw [hrec] at h
        injection h with h
        exact h ▸ ih (key + 1) m2 hrec
      | ok ws => rw [hrec] at h; simp at h

/-- C2 amended: each literal cell is validated with the declared SQL type
of the column at the cell's POSITION in the table's column list — for any
explicit target-column list `names`, the constraint errors the statement
reports are exactly the positional ones of `specConstraintErrors`, which
never consults `names`. -/
theorem insert_validates_with_positional_column_type
    (cols : List ColumnDefinition) (names : List String) (input : List (List Cell)) (k : Nat)
    (hlit : ∀ row ∈ input, ∀ c ∈ row, c.isLit)
    (hfit : ∀ row ∈ input, row.length ≤ cols.length) :
    ∃ out, insertExecute cols names input k = some out ∧
      out.msgs.filter isConstraintMsg = specConstraintErrors cols input := by
  unfold insertExecute
  rw [evalRows_eq cols input hlit hfit]
  cases hE : (specConstraintErrors cols input).isEmpty with
  | false =>
    refine ⟨⟨specConstraintErrors cols input, []⟩, by simp [hE], ?_⟩
    exact List.filter_eq_self.mpr (specConstraintErrors_all cols input)
  | true =>
    have hnil : specConstraintErrors cols input = [] := List.isEmpty_iff.mp hE
    simp only [hE, Bool.not_true, Bool.false_eq_true, if_false]
    cases hic : indexColumns cols names with
    | error ms2 =>
      refine ⟨⟨specConstraintErrors cols input ++ ms2, []⟩, by rfl, ?_⟩
      rw [hnil, List.nil_append, List.filter_eq_nil_iff]
      intro m hm
      unfold indexColumns at hic
      split at hic
      · simp at hic
      · split at hic
        · injection hic with hic
          subst hic
          rw [resolveColumns_eq] at hm
          simp [specUnresolvedErrors_not_constraint cols names m hm]
        · simp at hic
    | ok ics =>
      cases hbw : buildToWrite cols.length ics k (input.map (specValidRow cols)) with
      | error m =>
        refine ⟨⟨specConstraintErrors cols input ++ [m], []⟩, by simp only [hbw], ?_⟩
        have := buildToWrite_error cols.length ics _ _ _ hbw
        subst this
        simp [hnil, List.filter, isConstraintMsg]
      | ok ws =>
        refine ⟨⟨specConstraintErrors cols input ++ [.ev (.recordsInserted ws.length)], ws⟩, by simp only [hbw], ?_⟩
        simp [hnil, List.filter, isConstraintMsg]

/-- Witness for C2's amended theorem, at the counterexample input: the
explicit list maps the cell to column `b`, the cell passes because the
positional column `a` accepts it, and no constraint error is filtered
out of the sent messages. -/
theorem insert_validates_with_positional_column_type_witness :
    ∃ out, insertExecute [⟨"a", .char 3⟩, ⟨"b", .smallInt⟩] ["b"] [[.lit "abc"]] 0 = some out ∧
      out.msgs.filter isConstraintMsg =
        specConstraintErrors [⟨"a", .char 3⟩, ⟨"b", .smallInt⟩] [[.lit "abc"]] :=
  insert_validates_with_positional_column_type _ _ _ 0 (by decide) (by decide)

/-! ## Record-construction lemmas -/

/-- The last value assigned to record position `j` by the zipped
value/index-column pairs (later assignments win, as later `set`s do). -/
def lastVal : List (String × Nat × ColumnDefinition) → Nat → Option String
  | [], _ => none
  | p :: rest, j =>
    match lastVal rest j with
    | some s => some s
    | none => if p.2.1 = j then some p.1 else none

lemma foldl_set_getElem? :
    ∀ (ps : List (String × Nat × ColumnDefinition)) (init : List Datum) (j : Nat),
    (ps.foldl (fun rec p => rec.set p.2.1 (.dstr p.1)) init)[j]? =
      match lastVal ps j with
      | some s => if j < init.length then some (.dstr s) else none
      | none => init[j]? := by
  intro ps
  induction ps with
  | nil => intro init j; rfl
  | cons p rest ih =>
    intro init j
    rw [List.foldl_cons, ih]
    simp only [lastVal]
    cases h : lastVal rest j with
    | some s => simp [h, List.length_set]
    | none =>
      simp only [h]
      by_cases hij : p.2.1 = j
      · subst hij
        rw [List.getElem?_set]
        simp
      · rw [List.getElem?_set_ne hij]
        simp [hij]

lemma buildRecord_getElem? (numCols : Nat) (ics : List (Nat × ColumnDefinition))
    (row : List String) (j : Nat) :
    (buildRecord numCols ics row)[j]? =
      match lastVal (row.zip ics) j with
      | some s => if j < numCols then some (.dstr s) else none
      | none => if j < numCols then some .dnull else none := by
  rw [buildRecord, foldl_set_getElem?]
  cases lastVal (row.zip ics) j <;>
    simp [List.getElem?_replicate, List.length_replicate]

lemma lastVal_zip_enumFrom :
    ∀ (vals : List String) (cs : List ColumnDefinition) (k j : Nat),
    lastVal (vals.zip (cs.enumFrom k)) j =
      if k ≤ j ∧ j - k < cs.length then vals[j - k]? else none := by
  intro vals
  induction vals with
  | nil =>
    intro cs k j
    simp [lastVal, List.zip_nil_left]
  | cons v vs ih =>
    intro cs k j
    cases cs with
    | nil => simp [List.enumFrom, List.zip_nil_right, lastVal]
    | cons c cc =>
      rw [List.enumFrom_cons, List.zip_cons_cons]
      simp only [lastVal, ih]
      by_cases h1 : k + 1 ≤ j ∧ j - (k + 1) < cc.length
      · have hk : k ≠ j := by omega
        have hsub : j - k = (j - (k + 1)) + 1 := by omega
        have hcond : k ≤ j ∧ j - k < (c :: cc).length := by simp; omega
        rw [if_pos h1, if_pos hcond, hsub, List.getElem?_cons_succ]
        cases hv : vs[j - (k + 1)]? <;> simp [hk]
      · rw [if_neg h1]
        by_cases hk : k = j
        · subst hk
          have hcond : k ≤ k ∧ k - k < (c :: cc).length := by simp
          rw [if_pos hcond]
          simp
        · rw [if_neg hk]
          by_cases hcond : k ≤ j ∧ j - k < (c :: cc).length
          · exfalso
            simp only [List.length_cons] at hcond
            push_neg at h1
            have h3 : k + 1 ≤ j := by omega
            have h4 := h1 h3
            omega
          · rw [if_neg hcond]

lemma filterMap_cellOkText_eq (cols : List ColumnDefinition) :
    ∀ (row : List Cell) (idx : Nat), (∀ c ∈ row, c.isLit) → idx + row.length ≤ cols.length →
    (row.enumFrom idx).filterMap (cellErrMsg cols) = [] →
    (row.enumFrom idx).filterMap (cellOkText cols) = row.map litText := by
  intro row
  induction row with
  | nil => intro idx _ _ _; simp [List.enumFrom]
  | cons c rest ih =>
    intro idx hlit hfit herr
    obtain ⟨s, rfl⟩ : ∃ s, c = Cell.lit s := by
      have := hlit c (by simp)
      cases c <;> simp_all [Cell.isLit]
    have hidx : idx < cols.length := by simp at hfit; omega
    have hcol : cols[idx]? = some cols[idx] := List.getElem?_eq_getElem hidx
    rw [List.enumFrom_cons, List.filterMap_cons] at herr ⊢
    cases hval : (cols[idx].sqlType).validate s with
    | some ce => simp [cellErrMsg, hcol, hval] at herr
    | none =>
      have herr2 : (rest.enumFrom (idx + 1)).filterMap (cellErrMsg cols) = [] := by
        simpa [cellErrMsg, hcol, hval] using herr
      simp only [cellOkText, hcol, hval]
      rw [ih (idx + 1) (fun c hc => hlit c (by simp [hc])) (by simp at hfit ⊢; omega) herr2]
      simp [litText]

lemma specValidRow_eq_map (cols : List ColumnDefinition) (input : List (List Cell))
    (hlit : ∀ row ∈ input, ∀ c ∈ row, c.isLit)
    (hfit : ∀ row ∈ input, row.length ≤ cols.length)
    (hok : specConstraintErrors cols input = []) :
    input.map (specValidRow cols) = input.map (fun row => row.map litText) := by
  apply List.map_congr_left
  intro row hrow
  have herr : (row.enumFrom 0).filterMap (cellErrMsg cols) = [] := by
    have := List.flatMap_eq_nil_iff.mp hok row hrow
    simpa [List.enum_eq_enumFrom] using this
  rw [specValidRow, List.enum_eq_enumFrom]
  exact filterMap_cellOkText_eq cols row 0 (hlit row hrow)
    (by simpa using hfit row hrow) herr

lemma buildToWrite_ok (numCols : Nat) (ics : List (Nat × ColumnDefinition)) :
    ∀ (rows : List (List String)) (key : Nat), (∀ r ∈ rows, r.length ≤ numCols) →
    buildToWrite numCols ics key rows =
      .ok ((rows.enumFrom key).map fun p => (p.1, buildRecord numCols ics p.2)) := by
  intro rows
  induction rows with
  | nil => intro key _; simp [buildToWrite, List.enumFrom]
  | cons r rest ih =>
    intro key hfit
    have hr : ¬ numCols < r.length := by have := hfit r (by simp); omega
    rw [List.enumFrom_cons]
    simp only [buildToWrite, if_neg hr,
      ih (key + 1) (fun x hx => hfit x (by simp [hx])), List.map_cons]

lemma buildRecord_positional (cols : List ColumnDefinition) (row : List Cell)
    (hlit : ∀ c ∈ row, c.isLit) :
    buildRecord cols.length cols.enum (row.map litText) =
      specPositionalRecord cols.length row := by
  apply List.ext_getElem?
  intro j
  rw [buildRecord_getElem?, List.enum_eq_enumFrom, lastVal_zip_enumFrom]
  by_cases hj : j < cols.length
  · have hcond : 0 ≤ j ∧ j - 0 < cols.length := by omega
    rw [if_pos hcond]
    simp only [Nat.sub_zero, List.getElem?_map]
    rw [specPositionalRecord, List.getElem?_map, List.getElem?_range hj]
    cases hr : row[j]? with
    | none => simp [hr, hj]
    | some c =>
      have hc : c.isLit := by
        obtain ⟨h, rfl⟩ := List.getElem?_eq_some.mp hr
        exact hlit _ (List.getElem_mem h)
      cases c with
      | lit s => simp [litText, hj, hr]
      | nonLit => simp [Cell.isLit] at hc
      | evalFailed => simp [Cell.isLit] at hc
  · have hcond : ¬(0 ≤ j ∧ j - 0 < cols.length) := by omega
    rw [if_neg hcond]
    rw [specPositionalRecord, List.getElem?_map,
      List.getElem?_eq_none (by rw [List.length_range]; omega)]
    simp [hj]

lemma lastVal_eq_none (j : Nat) :
    ∀ ps : List (String × Nat × ColumnDefinition),
    j ∉ ps.map (fun p => p.2.1) → lastVal ps j = none := by
  intro ps
  induction ps with
  | nil => intro _; rfl
  | cons p rest ih =>
    intro h
    simp only [List.map_cons, List.mem_cons, not_or] at h
    simp only [lastVal, ih h.2]
    rw [if_neg (fun he => h.1 he.symm)]

lemma findColumn_aux :
    ∀ (cs : List ColumnDefinition) (k : Nat) (nm : String) (i : Nat) (c : ColumnDefinition),
    (cs.enumFrom k).find? (fun p => p.2.name == nm) = some (i, c) →
    k ≤ i ∧ cs[i - k]? = some c ∧ c.name = nm ∧
      ∀ j, k ≤ j → j < i → ∀ c', cs[j - k]? = some c' → c'.name ≠ nm := by
  intro cs
  induction cs with
  | nil => intro k nm i c h; simp [List.enumFrom, List.find?] at h
  | cons c0 cc ih =>
    intro k nm i c h
    rw [List.enumFrom_cons] at h
    by_cases h0 : c0.name == nm
    · rw [List.find?_cons_of_pos _ (by simpa using h0)] at h
      obtain ⟨rfl, rfl⟩ : k = i ∧ c0 = c := by
        injection h with h
        exact ⟨congrArg Prod.fst h, congrArg Prod.snd h⟩
      refine ⟨le_refl _, by simp, by simpa using h0, ?_⟩
      intro j h1 h2 c' _ _
      omega
    · rw [List.find?_cons_of_neg _ (by simpa using h0)] at h
      obtain ⟨hki, hget, hname, hprev⟩ := ih (k + 1) nm i c h
      refine ⟨by omega, ?_, hname, ?_⟩
      · have hs : i - k = (i - (k + 1)) + 1 := by omega
        rw [hs, List.getElem?_cons_succ]
        exact hget
      · intro j hkj hji c' hc'
        by_cases hjk : j = k
        · subst hjk
          rw [Nat.sub_self, List.getElem?_cons_zero] at hc'
          injection hc' with hc'
          subst hc'
          simpa using h0
        · have hs : j - k = (j - (k + 1)) + 1 := by omega
          rw [hs, List.getElem?_cons_succ] at hc'
          exact hprev j (by omega) hji c' hc'

/-- C6: INSERT target-column resolution.  (1) With no explicit list,
cells map positionally: an accepted statement writes one record per row,
cell `j` into column `j`, NULL beyond the row's end.  (2) With an
explicit list containing an unresolvable name, the statement sends one
`column_does_not_exist` per unresolved name and writes nothing.
(3) Resolution takes the FIRST matching column.  (4) Every record
position not assigned by the value/target-column pairing stays NULL. -/
theorem insert_target_column_resolution :
    (∀ (cols : List ColumnDefinition) (input : List (List Cell)) (k : Nat),
      (∀ row ∈ input, ∀ c ∈ row, c.isLit) →
      (∀ row ∈ input, row.length ≤ cols.length) →
      specConstraintErrors cols input = [] →
      insertExecute cols [] input k =
        some ⟨[.ev (.recordsInserted input.length)], specPositionalWrites cols input k⟩) ∧
    (∀ (cols : List ColumnDefinition) (names : List String) (input : List (List Cell)) (k : Nat),
      (∀ row ∈ input, ∀ c ∈ row, c.isLit) →
      (∀ row ∈ input, row.length ≤ cols.length) →
      specConstraintErrors cols input = [] →
      names.any (fun nm => (findColumn cols nm).isNone) = true →
      insertExecute cols names input k = some ⟨specUnresolvedErrors cols names, []⟩) ∧
    (∀ (cols : List ColumnDefinition) (nm : String) (i : Nat) (c : ColumnDefinition),
      findColumn cols nm = some (i, c) →
      cols[i]? = some c ∧ c.name = nm ∧
        ∀ j, j < i → ∀ c', cols[j]? = some c' → c'.name ≠ nm) ∧
    (∀ (numCols : Nat) (ics : List (Nat × ColumnDefinition)) (vals : List String) (j : Nat),
      j < numCols → j ∉ (vals.zip ics).map (fun p => p.2.1) →
      (buildRecord numCols ics vals)[j]? = some .dnull) := by
  refine ⟨?_, ?_, ?_, ?_⟩
  · intro cols input k hlit hfit hok
    unfold insertExecute
    rw [evalRows_eq cols input hlit hfit, hok]
    have hfit2 : ∀ r ∈ input.map (fun row => row.map litText), r.length ≤ cols.length := by
      intro r hr
      rw [List.mem_map] at hr
      obtain ⟨row, hrow, rfl⟩ := hr
      simpa using hfit row hrow
    rw [specValidRow_eq_map cols input hlit hfit hok]
    have hidx : indexColumns cols [] = .ok cols.enum := rfl
    simp only [List.isEmpty_nil, Bool.not_true, Bool.false_eq_true, if_false, hidx,
      buildToWrite_ok cols.length cols.enum _ k hfit2]
    rw [List.enumFrom_map, List.map_map]
    have hwrites :
        (input.enumFrom k).map
            ((fun p => (p.1, buildRecord cols.length cols.enum p.2)) ∘ Prod.map id (List.map litText)) =
          specPositionalWrites cols input k := by
      rw [specPositionalWrites]
      apply List.map_congr_left
      intro p hp
      obtain ⟨i, row⟩ := p
      obtain ⟨_, _, hrow⟩ := List.mem_enumFrom hp
      have hmem : row ∈ input := by rw [hrow]; exact List.getElem_mem _
      simp only [Function.comp, Prod.map, id]
      rw [buildRecord_positional cols row (hlit row hmem)]
    rw [hwrites]
    have hlen : ((input.enumFrom k).map
        ((fun p => (p.1, buildRecord cols.length cols.enum p.2)) ∘
          Prod.map id (List.map litText))).length = input.length := by
      rw [List.length_map, List.enumFrom_length]
    rw [← hwrites, hlen, List.nil_append]
  · intro cols names input k hlit hfit hok hbad
    unfold insertExecute
    rw [evalRows_eq cols input hlit hfit, hok]
    have hne : names.isEmpty = false := by
      cases names with
      | nil => simp at hbad
      | cons a l => rfl
    have hres : indexColumns cols names = .error (specUnresolvedErrors cols names) := by
      unfold indexColumns
      rw [resolveColumns_eq]
      simp [hne, hbad]
    simp only [List.isEmpty_nil, Bool.not_true, Bool.false_eq_true, if_false, hres,
      List.nil_append]
  · intro cols nm i c h
    rw [findColumn, List.enum_eq_enumFrom] at h
    obtain ⟨_, hget, hname, hprev⟩ := findColumn_aux cols 0 nm i c h
    refine ⟨by simpa using hget, hname, ?_⟩
    intro j hj c' hc'
    exact hprev j (Nat.zero_le j) hj c' (by simpa using hc')
  · intro numCols ics vals j hj hmem
    rw [buildRecord_getElem?, lastVal_eq_none j _ hmem, if_pos hj]

/-- Witness for C6 at concrete inputs: a positional insert writing NULL
into the untargeted second column; a three-name list with two unresolved
names aborting with their two errors; first-match resolution on a table
with a duplicated column name; NULL at an unassigned record position. -/
theorem insert_target_column_resolution_witness :
    insertExecute [⟨"a", .smallInt⟩, ⟨"b", .smallInt⟩] [] [[.lit "7"]] 5 =
      some ⟨[.ev (.recordsInserted 1)],
        specPositionalWrites [⟨"a", .smallInt⟩, ⟨"b", .smallInt⟩] [[.lit "7"]] 5⟩ ∧
    insertExecute [⟨"a", .smallInt⟩] ["zz", "a", "qq"] [[.lit "7"]] 0 =
      some ⟨specUnresolvedErrors [⟨"a", .smallInt⟩] ["zz", "a", "qq"], []⟩ ∧
    ([⟨"x", .smallInt⟩, ⟨"x", .char 1⟩] : List ColumnDefinition)[0]? =
      some ⟨"x", .smallInt⟩ ∧
    (buildRecord 2 [(1, ⟨"b", .smallInt⟩)] ["7"])[0]? = some .dnull :=
  ⟨insert_target_column_resolution.1 _ _ 5 (by decide) (by decide) (by decide),
   insert_target_column_resolution.2.1 _ _ _ 0 (by decide) (by decide) (by decide) (by decide),
   (insert_target_column_resolution.2.2.1 [⟨"x", .smallInt⟩, ⟨"x", .char 1⟩] "x" 0
       ⟨"x", .smallInt⟩ (by decide)).1,
   insert_target_column_resolution.2.2.2 2 [(1, ⟨"b", .smallInt⟩)] ["7"] 0
     (by decide) (by decide)⟩

/-! ## Surplus values with an explicit target-column list (C10) -/

lemma zip_eq_zip_take :
    ∀ (as : List String) (bs : List (Nat × ColumnDefinition)),
    as.zip bs = (as.take bs.length).zip bs := by
  intro as
  induction as with
  | nil => intro bs; simp
  | cons a rest ih =>
    intro bs
    cases bs with
    | nil => simp [List.zip_nil_right]
    | cons b bs => simp [List.zip_cons_cons, ih bs]

lemma length_filterMap_findColumn (cols : List ColumnDefinition) :
    ∀ names : List String, (names.all fun nm => (findColumn cols nm).isSome) = true →
    (names.filterMap (findColumn cols)).length = names.length := by
  intro names
  induction names with
  | nil => intro _; rfl
  | cons nm rest ih =>
    intro h
    rw [List.all_cons, Bool.and_eq_true] at h
    obtain ⟨s, hs⟩ := Option.isSome_iff_exists.mp h.1
    rw [List.filterMap_cons, hs]
    simp [ih h.2]

lemma enumFrom_take :
    ∀ (l : List Cell) (n k : Nat), (l.take n).enumFrom k = (l.enumFrom k).take n := by
  intro l
  induction l with
  | nil => intro n k; simp
  | cons c rest ih =>
    intro n k
    cases n with
    | zero => simp
    | succ m => simp [List.enumFrom_cons, ih]

lemma specConstraintErrors_take (cols : List ColumnDefinition) (row : List Cell) (m : Nat)
    (hok : specConstraintErrors cols [row] = []) :
    specConstraintErrors cols [row.take m] = [] := by
  simp only [specConstraintErrors, List.flatMap_cons, List.flatMap_nil,
    List.append_nil] at hok ⊢
  rw [List.filterMap_eq_nil_iff] at hok ⊢
  intro p hp
  apply hok
  rw [List.enum_eq_enumFrom] at hp ⊢
  rw [enumFrom_take] at hp
  exact List.take_subset _ _ hp

lemma insertExecute_single_ok
    (cols : List ColumnDefinition) (names : List String) (row : List Cell) (k : Nat)
    (hlit : ∀ c ∈ row, c.isLit)
    (hfit : row.length ≤ cols.length)
    (hok : specConstraintErrors cols [row] = [])
    (hres : (names.all fun nm => (findColumn cols nm).isSome) = true)
    (hne : names ≠ []) :
    insertExecute cols names [row] k =
      some ⟨[.ev (.recordsInserted 1)],
        [(k, buildRecord cols.length (names.filterMap (findColumn cols)) (row.map litText))]⟩ := by
  have hlit1 : ∀ r ∈ [row], ∀ c ∈ r, c.isLit := by simpa using hlit
  have hfit1 : ∀ r ∈ [row], r.length ≤ cols.length := by simpa using hfit
  unfold insertExecute
  rw [evalRows_eq cols [row] hlit1 hfit1, hok]
  have hne2 : names.isEmpty = false := by
    cases names with
    | nil => exact absurd rfl hne
    | cons a l => rfl
  have hno : (names.any fun nm => (findColumn cols nm).isNone) = false := by
    rw [Bool.eq_false_iff]
    intro hcontra
    obtain ⟨nm, hmem, hnone⟩ := List.any_eq_true.mp hcontra
    have hsome := List.all_eq_true.mp hres nm hmem
    rw [Option.isNone_iff_eq_none] at hnone
    rw [hnone] at hsome
    simp at hsome
  have hidx : indexColumns cols names = .ok (names.filterMap (findColumn cols)) := by
    unfold indexColumns
    rw [resolveColumns_eq]
    simp [hne2, hno]
  have hvr : [row].map (specValidRow cols) = [row.map litText] := by
    simpa using specValidRow_eq_map cols [row] hlit1 hfit1 hok
  have hfit2 : ∀ r ∈ [row.map litText], r.length ≤ cols.length := by simpa using hfit
  simp only [List.isEmpty_nil, Bool.not_true, Bool.false_eq_true, if_false, hidx, hvr,
    buildToWrite_ok cols.length (names.filterMap (findColumn cols)) [row.map litText] k hfit2,
    List.enumFrom_cons, List.enumFrom_nil, List.map_cons, List.map_nil, List.length_cons,
    List.length_nil, List.nil_append]

/-- C10: with an explicit target-column list of `k` resolvable columns, a
row holding more than `k` literal values (but no more than the table's
column count) is not rejected: the statement behaves exactly as if the row
had been truncated to its first `k` values — those are assigned to the `k`
target columns — and one record is written, the surplus silently
discarded. -/
theorem insert_surplus_values_silently_discarded
    (cols : List ColumnDefinition) (names : List String) (row : List Cell) (key : Nat)
    (hlit : ∀ c ∈ row, c.isLit)
    (hfit : row.length ≤ cols.length)
    (hok : specConstraintErrors cols [row] = [])
    (hres : (names.all fun nm => (findColumn cols nm).isSome) = true)
    (hne : names ≠ [])
    (hsur : names.length < row.length) :
    insertExecute cols names [row] key =
      insertExecute cols names [row.take names.length] key ∧
    ∃ rec, insertExecute cols names [row] key =
      some ⟨[.ev (.recordsInserted 1)], [(key, rec)]⟩ := by
  have hL := insertExecute_single_ok cols names row key hlit hfit hok hres hne
  have hlit2 : ∀ c ∈ row.take names.length, c.isLit :=
    fun c hc => hlit c (List.take_subset _ _ hc)
  have hfit2 : (row.take names.length).length ≤ cols.length := by
    rw [List.length_take]
    omega
  have hok2 := specConstraintErrors_take cols row names.length hok
  have hR := insertExecute_single_ok cols names (row.take names.length) key
    hlit2 hfit2 hok2 hres hne
  have hics : (names.filterMap (findColumn cols)).length = names.length :=
    length_filterMap_findColumn cols names hres
  have hrec : buildRecord cols.length (names.filterMap (findColumn cols)) (row.map litText) =
      buildRecord cols.length (names.filterMap (findColumn cols))
        ((row.take names.length).map litText) := by
    unfold buildRecord
    rw [List.map_take,
      zip_eq_zip_take (row.map litText) (names.filterMap (findColumn cols)), hics]
  refine ⟨?_, ⟨_, hL⟩⟩
  rw [hL, hR, hrec]

/-- Witness for C10: table `(a SMALLINT, b SMALLINT)`, list `(b)`, row
`(7, 8)`: the surplus `8` is discarded, `7` goes to column `b`, one
record is written. -/
theorem insert_surplus_values_silently_discarded_witness :
    (insertExecute [⟨"a", .smallInt⟩, ⟨"b", .smallInt⟩] ["b"] [[.lit "7", .lit "8"]] 0 =
      insertExecute [⟨"a", .smallInt⟩, ⟨"b", .smallInt⟩] ["b"]
        [[Cell.lit "7", Cell.lit "8"].take 1] 0 ∧
     ∃ rec, insertExecute [⟨"a", .smallInt⟩, ⟨"b", .smallInt⟩] ["b"] [[.lit "7", .lit "8"]] 0 =
       some ⟨[.ev (.recordsInserted 1)], [(0, rec)]⟩) ∧
    insertExecute [⟨"a", .smallInt⟩, ⟨"b", .smallInt⟩] ["b"] [[.lit "7", .lit "8"]] 0 =
      some ⟨[.ev (.recordsInserted 1)], [(0, [.dnull, .dstr "7"])]⟩ :=
  ⟨insert_surplus_values_silently_discarded _ _ _ 0
      (by decide) (by decide) (by decide) (by decide) (by decide) (by decide),
   by decide⟩

/-! ## Name-construction claims (C3) and drop-schema executor (C4, C5) -/

/-- C3: schema-name construction from a multi-part identifier fails with
a message containing "only unqualified schema names are supported"; a
one-part table identifier fails with a message containing "must be
qualified"; three or more parts fail with a message containing "unable to
process"; a two-part identifier yields the (schema = first part,
table = second part) full table name. -/
lemma str_split_left (m p j q : String) :
    ((m ++ p) ++ j) ++ q = ("" ++ m) ++ ((p ++ j) ++ q) := by
  simp [String.append_assoc, String.empty_append]

lemma str_split_right (a j c tok : String) :
    a ++ (j ++ (c ++ tok)) = (((a ++ j) ++ c) ++ tok) ++ "" := by
  simp [String.append_assoc, String.append_empty]

theorem naming_part_count_validation :
    (∀ parts : List String, 1 < parts.length →
      ∃ e, schemaNameTryFrom parts = .error e ∧
        ∃ pre post, schemaNamingErrorText e =
          pre ++ "only unqualified schema names are supported" ++ post) ∧
    (∀ parts : List String, parts.length = 1 →
      ∃ t, fullTableNameTryFrom parts = .error (.unqualified t) ∧
        ∃ pre post, tableNamingErrorText (.unqualified t) =
          pre ++ "must be qualified" ++ post) ∧
    (∀ parts : List String, 3 ≤ parts.length →
      ∃ t, fullTableNameTryFrom parts = .error (.notProcessed t) ∧
        ∃ pre post, tableNamingErrorText (.notProcessed t) =
          pre ++ "unable to process" ++ post) ∧
    (∀ s t : String, fullTableNameTryFrom [s, t] = .ok ⟨s, t⟩) := by
  refine ⟨?_, ?_, ?_, ?_⟩
  · intro parts h
    refine ⟨⟨joinDot parts⟩, ?_, "", ", \x27" ++ joinDot parts ++ "\x27", ?_⟩
    · rw [schemaNameTryFrom, if_pos (by omega)]
    · rw [schemaNamingErrorText]
      have hsplit : "only unqualified schema names are supported, \x27" =
          "only unqualified schema names are supported" ++ ", \x27" := by decide
      rw [hsplit]
      exact str_split_left _ _ _ _
  · intro parts h
    refine ⟨joinDot parts, ?_,
      "unsupported table name \x27" ++ joinDot parts ++ "\x27. All table names ", "", ?_⟩
    · rw [fullTableNameTryFrom, if_pos (by simp [h])]
    · rw [tableNamingErrorText, String.append_assoc]
      have hsplit : "\x27. All table names must be qualified" =
          "\x27. All table names " ++ "must be qualified" := by decide
      rw [hsplit]
      exact str_split_right _ _ _ _
  · intro parts h
    refine ⟨joinDot parts, ?_,
      "", " table name \x27" ++ joinDot parts ++ "\x27", ?_⟩
    · rw [fullTableNameTryFrom, if_neg (by simp; omega), if_pos (by omega)]
    · rw [tableNamingErrorText]
      have hsplit : "unable to process table name \x27" =
          "unable to process" ++ " table name \x27" := by decide
      rw [hsplit]
      exact str_split_left _ _ _ _
  · intro s t
    rw [fullTableNameTryFrom, if_neg (by simp), if_neg (by simp)]
    rfl

/-- Witness for C3: the two-part identifier `a.b` fails schema-name
construction, the one-part `t` and three-part `a.b.c` fail table-name
construction with their messages, and `s.t` resolves to schema `s`,
table `t`. -/
theorem naming_part_count_validation_witness :
    (∃ e, schemaNameTryFrom ["a", "b"] = .error e ∧
      ∃ pre post, schemaNamingErrorText e =
        pre ++ "only unqualified schema names are supported" ++ post) ∧
    (∃ t, fullTableNameTryFrom ["t"] = .error (.unqualified t) ∧
      ∃ pre post, tableNamingErrorText (.unqualified t) =
        pre ++ "must be qualified" ++ post) ∧
    (∃ t, fullTableNameTryFrom ["a", "b", "c"] = .error (.notProcessed t) ∧
      ∃ pre post, tableNamingErrorText (.notProcessed t) =
        pre ++ "unable to process" ++ post) ∧
    fullTableNameTryFrom ["s", "t"] = .ok ⟨"s", "t"⟩ :=
  ⟨naming_part_count_validation.1 ["a", "b"] (by decide),
   naming_part_count_validation.2.1 ["t"] (by decide),
   naming_part_count_validation.2.2.1 ["a", "b", "c"] (by decide),
   naming_part_count_validation.2.2.2 "s" "t"⟩

/-- C4 counterexample: the `CatalogDoesNotExist` outcome is discarded
exactly like `DoesNotExist` — no message sent, `Ok(())` returned — so it
is NOT distinguishable in effect, contradicting the claim that only
`CatalogDoesNotExist` and success are the distinguishable outcomes. -/
theorem drop_schema_catalog_outcome_indistinguishable :
    dropSchemaExecute (ε := Nat) true (fun _ => .dropErr .catalogDoesNotExist) =
      dropSchemaExecute (ε := Nat) true (fun _ => .dropErr .doesNotExist) ∧
    dropSchemaExecute (ε := Nat) true (fun _ => .dropErr .catalogDoesNotExist) = .ok [] ∧
    dropSchemaExecute (ε := Nat) true (fun _ => .dropped) = .ok [.ev .schemaDropped] :=
  ⟨rfl, rfl, rfl⟩

/-- C4 amended: the executor consults the façade exactly at the strategy
`Cascade` when the cascade flag is set and `Restrict` otherwise; a
storage error propagates unmodified; a successful drop emits
`SchemaDropped`; and ALL three drop-error outcomes — `DoesNotExist`,
`HasDependentObjects` and `CatalogDoesNotExist` alike — are discarded
without notifying the client, so only success is distinguishable. -/
theorem drop_schema_executor_behaviour :
    (∀ (ε : Type) (c : Bool) (dm : DropStrategy → DmDropResult ε),
      dropSchemaExecute c dm =
        dropSchemaExecute c
          (fun _ => dm (if c then DropStrategy.cascade else DropStrategy.restrict))) ∧
    (∀ (ε : Type) (c : Bool) (e : ε),
      dropSchemaExecute c (fun _ => DmDropResult.sysErr e) = .error e) ∧
    (∀ (ε : Type) (c : Bool),
      dropSchemaExecute (ε := ε) c (fun _ => DmDropResult.dropped) =
        .ok [.ev .schemaDropped]) ∧
    (∀ (ε : Type) (c : Bool) (de : DropSchemaError),
      dropSchemaExecute (ε := ε) c (fun _ => DmDropResult.dropErr de) = .ok []) := by
  refine ⟨fun ε c dm => rfl, fun ε c e => rfl, fun ε c => rfl, fun ε c de => ?_⟩
  cases de <;> rfl

/-- C5: the failing input — a one-column table and a candidate row of two
literal values.  The executor panics (`all_columns[idx]` out of bounds in
the evaluation loop, insert.rs line 58, modelled as `none`) before its own
`too_many_insert_expressions` check at lines 163-169 can run, so no error
event is sent and no clean zero-write abort happens. -/
theorem insert_overlong_row_panics :
    insertExecute [⟨"c", .smallInt⟩] [] [[.lit "1", .lit "2"]] 0 = none := by decide

/-! ## Projection (C7), scenario B (C8), drop-schema planner (C9) -/

/-- C7: selecting `[last, middle, first, last, middle]` over the table
`(first, middle, last)` with rows `(1,2,3)/(4,5,6)/(7,8,9)` returns
exactly that five-column header and every row permuted and duplicated
identically. -/
theorem projection_preserves_duplicates_and_order :
    selectAllFrom [("first", .smallInt), ("middle", .smallInt), ("last", .smallInt)]
      [["1", "2", "3"], ["4", "5", "6"], ["7", "8", "9"]]
      ["last", "middle", "first", "last", "middle"] =
      some ([("last", .smallInt), ("middle", .smallInt), ("first", .smallInt),
             ("last", .smallInt), ("middle", .smallInt)],
        [["3", "2", "1", "3", "2"], ["6", "5", "4", "6", "5"],
         ["9", "8", "7", "9", "8"]]) := by decide

/-- C8: the statement sequence of scenario B — create table, insert 123,
insert 456, select *, delete, select * — emits TableCreated,
RecordsInserted(1) twice, RecordsSelected of the two rows in insertion
order, RecordsDeleted(2) and a final RecordsSelected with the identical
header and no rows, each statement followed by QueryComplete; and the
delete executor removes all currently stored rows, reporting their
count. -/
theorem scenario_b_event_sequence :
    scenB = some [.ev .tableCreated, qc,
      .ev (.recordsInserted 1), qc, .ev (.recordsInserted 1), qc,
      .ev (.recordsSelected [("column_test", .smallInt)] [["123"], ["456"]]), qc,
      .ev (.recordsDeleted 2), qc,
      .ev (.recordsSelected [("column_test", .smallInt)] []), qc] ∧
    (∀ ts : TableState,
      deleteAllExec ts = ([.ev (.recordsDeleted ts.rows.length)], { ts with rows := [] })) :=
  ⟨by decide, fun ts => rfl⟩

/-- C9: the drop-schema planner aborts with a syntax error sent to the
sink at the first malformed schema name, aborts with a
schema-does-not-exist error at the first name missing from the catalog,
and on success returns the `DropSchemas` payload pairing every resolved
schema id with the cascade flag.  The catalog is consulted read-only. -/
theorem drop_schema_planner_behaviour :
    (∀ (cascade : Bool) (cat : String → Option Nat) (pre : List (List String))
        (bad : List String) (post : List (List String)),
      (∀ m ∈ pre, m.length = 1 ∧ (cat (joinDot m)).isSome) → bad.length ≠ 1 →
      dropSchemaPlan cascade cat (pre ++ bad :: post) =
        ([.err (.synError (schemaNamingErrorText ⟨joinDot bad⟩))], none)) ∧
    (∀ (cascade : Bool) (cat : String → Option Nat) (pre : List (List String))
        (bad : List String) (post : List (List String)),
      (∀ m ∈ pre, m.length = 1 ∧ (cat (joinDot m)).isSome) → bad.length = 1 →
      cat (joinDot bad) = none →
      dropSchemaPlan cascade cat (pre ++ bad :: post) =
        ([.err (.schemaDoesNotExist (joinDot bad))], none)) ∧
    (∀ (cascade : Bool) (cat : String → Option Nat) (names : List (List String)),
      (∀ m ∈ names, m.length = 1 ∧ (cat (joinDot m)).isSome) →
      dropSchemaPlan cascade cat names =
        ([], some (names.map fun m => ((cat (joinDot m)).getD 0, cascade)))) := by
  refine ⟨?_, ?_, ?_⟩
  · intro cascade cat pre bad post hpre hbad
    induction pre with
    | nil =>
      rw [List.nil_append]
      simp only [dropSchemaPlan]
      rw [schemaNameTryFrom, if_pos hbad]
    | cons m rest ih =>
      obtain ⟨hm1, hm2⟩ := hpre m (by simp)
      obtain ⟨sid, hsid⟩ := Option.isSome_iff_exists.mp hm2
      have hok : schemaNameTryFrom m = .ok (joinDot m) := by
        rw [schemaNameTryFrom, if_neg (by omega)]
      rw [List.cons_append]
      simp only [dropSchemaPlan, hok, hsid,
        ih (fun x hx => hpre x (by simp [hx])), Option.map_none']
  · intro cascade cat pre bad post hpre hbad hcat
    induction pre with
    | nil =>
      rw [List.nil_append]
      have hok : schemaNameTryFrom bad = .ok (joinDot bad) := by
        rw [schemaNameTryFrom, if_neg (by omega)]
      simp only [dropSchemaPlan, hok, hcat]
    | cons m rest ih =>
      obtain ⟨hm1, hm2⟩ := hpre m (by simp)
      obtain ⟨sid, hsid⟩ := Option.isSome_iff_exists.mp hm2
      have hok : schemaNameTryFrom m = .ok (joinDot m) := by
        rw [schemaNameTryFrom, if_neg (by omega)]
      rw [List.cons_append]
      simp only [dropSchemaPlan, hok, hsid,
        ih (fun x hx => hpre x (by simp [hx])), Option.map_none']
  · intro cascade cat names hnames
    induction names with
    | nil => rfl
    | cons m rest ih =>
      obtain ⟨hm1, hm2⟩ := hnames m (by simp)
      obtain ⟨sid, hsid⟩ := Option.isSome_iff_exists.mp hm2
      have hok : schemaNameTryFrom m = .ok (joinDot m) := by
        rw [schemaNameTryFrom, if_neg (by omega)]
      simp only [dropSchemaPlan, hok, hsid, List.map_cons,
        ih (fun x hx => hnames x (by simp [hx]))]
      simp [hsid]

/-- The concrete catalog used by the planner witness: only schema `s`
exists, with id 7. -/
def catW : String → Option Nat := fun nm => if nm == "s" then some 7 else none

/-- Witness for C9: over the catalog `catW`, dropping `s, a.b` aborts with
a syntax error, dropping `s, t` aborts with schema-does-not-exist, and
dropping `s, s` plans `[(7, cascade), (7, cascade)]`. -/
theorem drop_schema_planner_behaviour_witness :
    dropSchemaPlan true catW [["s"], ["a", "b"]] =
      ([.err (.synError (schemaNamingErrorText ⟨joinDot ["a", "b"]⟩))], none) ∧
    dropSchemaPlan false catW [["s"], ["t"]] =
      ([.err (.schemaDoesNotExist (joinDot ["t"]))], none) ∧
    dropSchemaPlan true catW [["s"], ["s"]] = ([], some [(7, true), (7, true)]) :=
  ⟨drop_schema_planner_behaviour.1 true catW [["s"]] ["a", "b"] [] (by decide) (by decide),
   drop_schema_planner_behaviour.2.1 false catW [["s"]] ["t"] [] (by decide) (by decide)
     (by decide),
   drop_schema_planner_behaviour.2.2 true catW [["s"], ["s"]] (by decide)⟩

end Db
